import Mathlib

/-!
Verification of the zustand-plus store enhancement layer.

The development shallowly embeds the code of the repository:

* JavaScript runtime values are modelled by `JVal`: primitives, function
  references, and mutable containers (objects, arrays, dates).  Every mutable
  container carries an allocation address `addr : Nat`, so that sharing and
  mutation isolation can be stated.
* JavaScript objects are association lists `List (String × α)`; property read
  is `lookupF` (JS objects have at most one binding per key; `setKey` keeps
  that invariant), property write is `setKey`, and the spread / Object.assign
  composition `\x7b...a, ...b\x7d` is `spreadMerge a b`.
* The store machinery of `src/src/store.ts` (`createStore`,
  `createPersistStore`, the injected `markUpdate` and `update` operations and
  the `lastUpdateTime` bookkeeping) is embedded as explicit state passing over
  a `StoreCell` that also records every invocation of the native setter, with
  the host clock (`Date.now()`) passed in as a parameter.  Both factories
  build the very same object literal of methods and the very same `update`
  and `markUpdate` closures, so one embedding serves both.
* `deepClone` and `ensure` are declared but their implementation is not part
  of the sources; they are modelled from the specification (sections 4.1 and
  4.5), as marked in their doc comments.
-/

/-- JavaScript primitive values (copied by value). -/
inductive Prim where
  | num (n : Int)
  | str (s : String)
  | boolean (b : Bool)
  | null
  | undef
deriving DecidableEq

/-- JavaScript runtime values.  Mutable containers (`obj`, `arr`, `date`)
carry an allocation address, so that sharing between two value graphs can be
expressed as sharing of addresses.  Functions are immutable closures and are
identified by a reference `ref`. -/
inductive JVal where
  | prim (p : Prim)
  | func (ref : Nat)
  | date (addr : Nat) (time : Int)
  | obj (addr : Nat) (fields : List (String × JVal))
  | arr (addr : Nat) (elems : List JVal)

/-- A JavaScript object seen as an association list of properties. -/
abbrev Obj := List (String × JVal)

/-- Property read: the value bound to key `k`, if any. -/
def lookupF : List (String × α) → String → Option α
  | [], _ => none
  | (k', v) :: r, k => if k = k' then some v else lookupF r k

/-- Remove every binding of key `k`. -/
def eraseKey : List (String × α) → String → List (String × α)
  | [], _ => []
  | (k', v) :: r, k => if k' = k then eraseKey r k else (k', v) :: eraseKey r k

/-- Property write: JavaScript assignment `o[k] = v`.  An existing binding is
overwritten in place (JS objects hold at most one binding per key), a missing
one is appended. -/
def setKey : List (String × α) → String → α → List (String × α)
  | [], k, v => [(k, v)]
  | (k', w) :: r, k, v =>
      if k' = k then (k, v) :: eraseKey r k else (k', w) :: setKey r k v

/-- The value the LAST binding of `k` carries; with the spread composition the
last binding is the one that wins. -/
def lookupLast : List (String × α) → String → Option α
  | [], _ => none
  | (k', v) :: r, k =>
      match lookupLast r k with
      | some w => some w
      | none => if k = k' then some v else none

/-- Spread composition `\x7b...a, ...b\x7d` (also `Object.assign(\x7b\x7d, a, b)`):
every property of `b` is assigned over `a`, so `b` wins on collisions. -/
def spreadMerge (a b : List (String × α)) : List (String × α) :=
  b.foldl (fun acc e => setKey acc e.1 e.2) a

mutual
/-- Modelled from the spec: the implementation of `deepClone` is not among
the sources (only its declaration `deepClone<T>(obj: T): T` and its use in
`store.ts`).  Following section 4.1 of the spec: primitives are returned
unchanged, plain aggregates (objects, arrays) and well-known containers
(dates) are rebuilt element-wise into a fresh container, and function values
are copied by reference.  Freshness of the rebuilt containers is made
explicit by an allocation counter `n`: every container produced by the clone
receives an address `≥ n`, and the final counter is returned. -/
def deepClone : JVal → Nat → JVal × Nat
  | .prim p, n => (.prim p, n)
  | .func r, n => (.func r, n)
  | .date _ t, n => (.date n t, n + 1)
  | .obj _ fs, n =>
      let r := deepCloneFields fs (n + 1)
      (.obj n r.1, r.2)
  | .arr _ es, n =>
      let r := deepCloneList es (n + 1)
      (.arr n r.1, r.2)

/-- Clone of the element list of an array, threading the allocation counter. -/
def deepCloneList : List JVal → Nat → List JVal × Nat
  | [], n => ([], n)
  | v :: vs, n =>
      let rv := deepClone v n
      let rvs := deepCloneList vs rv.2
      (rv.1 :: rvs.1, rvs.2)

/-- Clone of the property list of an object, threading the counter. -/
def deepCloneFields : List (String × JVal) → Nat → List (String × JVal) × Nat
  | [], n => ([], n)
  | (k, v) :: fs, n =>
      let rv := deepClone v n
      let rfs := deepCloneFields fs rv.2
      ((k, rv.1) :: rfs.1, rfs.2)
end

mutual
/-- Structural equality of values: equality everywhere except at container
addresses (two structurally equal containers may live at different
addresses). -/
def structEq : JVal → JVal → Bool
  | .prim p, .prim q => p == q
  | .func r, .func s => r == s
  | .date _ t, .date _ u => t == u
  | .obj _ fs, .obj _ gs => structEqFields fs gs
  | .arr _ es, .arr _ vs => structEqList es vs
  | _, _ => false

/-- Structural equality of array element lists. -/
def structEqList : List JVal → List JVal → Bool
  | [], [] => true
  | v :: vs, w :: ws => structEq v w && structEqList vs ws
  | _, _ => false

/-- Structural equality of property lists. -/
def structEqFields : List (String × JVal) → List (String × JVal) → Bool
  | [], [] => true
  | (k, v) :: fs, (l, w) :: gs => k == l && structEq v w && structEqFields fs gs
  | _, _ => false
end

mutual
/-- Addresses of all mutable containers reachable from a value. -/
def addrs : JVal → List Nat
  | .prim _ => []
  | .func _ => []
  | .date a _ => [a]
  | .obj a fs => a :: addrsFields fs
  | .arr a es => a :: addrsList es

/-- Addresses reachable from an element list. -/
def addrsList : List JVal → List Nat
  | [] => []
  | v :: vs => addrs v ++ addrsList vs

/-- Addresses reachable from a property list. -/
def addrsFields : List (String × JVal) → List Nat
  | [] => []
  | (_, v) :: fs => addrs v ++ addrsFields fs
end

mutual
/-- In-place mutation of the container allocated at address `tgt`: the
transformation `f` is applied to every container node carrying that address
(in a well-formed heap there is at most one).  A value that does not reach
address `tgt` is unaffected. -/
def writeAt (tgt : Nat) (f : JVal → JVal) : JVal → JVal
  | .prim p => .prim p
  | .func r => .func r
  | .date a t => if a = tgt then f (.date a t) else .date a t
  | .obj a fs =>
      if a = tgt then f (.obj a fs) else .obj a (writeAtFields tgt f fs)
  | .arr a es =>
      if a = tgt then f (.arr a es) else .arr a (writeAtList tgt f es)

/-- `writeAt` pushed through an element list. -/
def writeAtList (tgt : Nat) (f : JVal → JVal) : List JVal → List JVal
  | [] => []
  | v :: vs => writeAt tgt f v :: writeAtList tgt f vs

/-- `writeAt` pushed through a property list. -/
def writeAtFields (tgt : Nat) (f : JVal → JVal) :
    List (String × JVal) → List (String × JVal)
  | [] => []
  | (k, v) :: fs => (k, writeAt tgt f v) :: writeAtFields tgt f fs
end

/-- Numeric timestamp value (the result of `Date.now()` is a non-negative
integer). -/
def jnum (t : Nat) : JVal := .prim (.num (Int.ofNat t))

/-- The combined initial state object both factories hand to the middleware:
the object literal `\x7b...state, lastUpdateTime: 0\x7d` of `store.ts` (the
literal property is assigned after the spread, so it wins over any
user-supplied `lastUpdateTime` field). -/
def initState (userState : Obj) : Obj :=
  setKey userState "lastUpdateTime" (jnum 0)

/-- The store as the host engine keeps it: the current state object plus the
log of every patch handed to the native setter (zustand applies a patch by
`Object.assign` onto the previous state).  The log lets us state that an
operation never invoked the setter. -/
structure StoreCell where
  state : Obj
  setLog : List Obj

/-- The native zustand setter in its default (merge) mode: the next state is
`Object.assign(\x7b\x7d, previous, patch)`; the call is recorded in the log. -/
def doSet (c : StoreCell) (patch : Obj) : StoreCell :=
  ⟨spreadMerge c.state patch, c.setLog ++ [patch]⟩

/-- A store cell fresh out of `createStore` / `createPersistStore`, before
any mutation or hydration. -/
def initCell (userState : Obj) : StoreCell :=
  ⟨initState userState, []⟩

/-- The injected `markUpdate` operation of `store.ts`:
`set(\x7b lastUpdateTime: Date.now() \x7d)` with `now` the clock reading. -/
def markUpdateOp (c : StoreCell) (now : Nat) : StoreCell :=
  doSet c [("lastUpdateTime", jnum now)]

/-- The injected `update` operation of `store.ts`:
clone the current state, run the mutator on the clone, then commit
`set(\x7b...state, lastUpdateTime: Date.now()\x7d)`.  A mutator that raises a
failure (modelled by `Except.error`) aborts before the setter runs, leaving
the cell exactly as it was; the failure is returned to the caller.  `fresh`
is the allocation counter for the clone, `now` the clock reading at commit
time. -/
def updateOp (c : StoreCell) (m : Obj → Except String Obj) (now fresh : Nat) :
    StoreCell × Option String :=
  match m (deepCloneFields c.state fresh).1 with
  | .error e => (c, some e)
  | .ok d => (doSet c (setKey d "lastUpdateTime" (jnum now)), none)

/-- One store operation a user method can trigger: a direct native `set`
with a patch, the injected `update` with a mutator, or the injected
`markUpdate`. -/
inductive StoreOp where
  | nset (patch : Obj)
  | nupd (m : Obj → Except String Obj)
  | nmark

/-- An operation together with the host clock reading observed while it runs
and the allocation counter used for its clone (if any). -/
structure TimedOp where
  op : StoreOp
  now : Nat
  fresh : Nat

/-- Execute one operation against the store cell. -/
def stepOp (c : StoreCell) (t : TimedOp) : StoreCell :=
  match t.op with
  | .nset p => doSet c p
  | .nupd m => (updateOp c m t.now t.fresh).1
  | .nmark => markUpdateOp c t.now

/-- All intermediate store cells of a run, the starting cell included. -/
def traceOps (c : StoreCell) : List TimedOp → List StoreCell
  | [] => [c]
  | t :: ts => c :: traceOps (stepOp c t) ts

/-- The `lastUpdateTime` field of a state object, when it holds a number. -/
def lutOf (o : Obj) : Option Int :=
  match lookupF o "lastUpdateTime" with
  | some (.prim (.num t)) => some t
  | _ => none

/-- The `lastUpdateTime` of a store cell, defaulting to 0. -/
def lutD (c : StoreCell) : Int := (lutOf c.state).getD 0

/-- An operation whose patch does not itself assign `lastUpdateTime`
directly (the injected operations are always allowed). -/
def opSafeForLut : StoreOp → Prop
  | .nset p => lookupF p "lastUpdateTime" = none
  | _ => True

/-- The methods object literal of both factories:
`\x7b...methods(set, get), markUpdate() \x7b...\x7d, update(updater) \x7b...\x7d\x7d`.
The two literal properties are assigned after the spread of the
factory-returned mapping `um`, so the injected closures (modelled as the
function references `mkRef` and `upRef`) win over same-named factory
entries. -/
def injectMethods (um : Obj) (mkRef upRef : Nat) : Obj :=
  setKey (setKey um "markUpdate" (.func mkRef)) "update" (.func upRef)

/-- The full store object as assembled by `combine` inside `createStore` and
`createPersistStore`: the initial-state object merged with the injected
methods object (`combine` merges them with `Object.assign`). -/
def createStoreObject (userState um : Obj) (mkRef upRef : Nat) : Obj :=
  spreadMerge (initState userState) (injectMethods um mkRef upRef)

/-- `getMergedState` of the sources: `return \x7b..._get(), ...methods\x7d` —
the current state snapshot is read by invoking the accessor now, and the
fixed methods mapping is spread over it. -/
def getMergedState (g : Unit → Obj) (methods : Obj) : Obj :=
  spreadMerge (g ()) methods

/-- A value counting as the missing sentinel for `ensure`
(null or undefined). -/
def isMissing : JVal → Bool
  | .prim .null => true
  | .prim .undef => true
  | _ => false

/-- Modelled from the spec: the implementation of `ensure` is not among the
sources (only its declaration `ensure<T>(obj: T, keys): boolean`).  Following
section 4.5 of the spec: true iff every key in `keys` exists on `obj` with a
value different from the missing sentinel (null/undefined); no side
effects (the function is pure). -/
def ensure (obj : Obj) (keys : List String) : Bool :=
  keys.all fun k =>
    match lookupF obj k with
    | some v => !(isMissing v)
    | none => false

/-- The runtime (value) exports of the package entry point, transcribed in
source order from its final export declaration. -/
def valueExports : List String :=
  ["createPersistStore", "createStore", "deepClone", "ensure"]

/-- The type-only exports of the package entry point. -/
def typeExports : List String :=
  ["SetStoreState", "Updater"]

/-- Modelled from the spec (refinement target, for comparison only): the
public surface section 6 of the spec claims the library exposes. -/
def specPublicSurface : List String :=
  ["createStore", "createPersistStore", "getMergedState", "deepClone",
    "ensure"]


@[simp] theorem lookupF_eraseKey_self (l : List (String × α)) (k : String) :
    lookupF (eraseKey l k) k = none := by
  induction l with
  | nil => rfl
  | cons e r ih =>
      obtain ⟨k', v⟩ := e
      by_cases h : k' = k
      · simpa [eraseKey, h] using ih
      · simp [eraseKey, h, lookupF, Ne.symm h, ih]

theorem lookupF_eraseKey_other (l : List (String × α)) (k k' : String)
    (h : k' ≠ k) : lookupF (eraseKey l k) k' = lookupF l k' := by
  induction l with
  | nil => rfl
  | cons e r ih =>
      obtain ⟨k₀, v⟩ := e
      by_cases h0 : k₀ = k
      · subst h0
        simp [eraseKey, lookupF, h, ih]
      · by_cases h1 : k' = k₀ <;> simp [eraseKey, lookupF, h0, h1, ih]

@[simp] theorem lookupF_setKey_self (l : List (String × α)) (k : String)
    (v : α) : lookupF (setKey l k v) k = some v := by
  induction l with
  | nil => simp [setKey, lookupF]
  | cons e r ih =>
      obtain ⟨k₀, w⟩ := e
      by_cases h0 : k₀ = k
      · simp [setKey, h0, lookupF]
      · simp [setKey, h0, lookupF, Ne.symm h0, ih]

theorem lookupF_setKey_other (l : List (String × α)) (k k' : String) (v : α)
    (h : k' ≠ k) : lookupF (setKey l k v) k' = lookupF l k' := by
  induction l with
  | nil => simp [setKey, lookupF, h]
  | cons e r ih =>
      obtain ⟨k₀, w⟩ := e
      by_cases h0 : k₀ = k
      · subst h0
        simp [setKey, lookupF, h, lookupF_eraseKey_other r k₀ k' h]
      · by_cases h1 : k' = k₀ <;> simp [setKey, lookupF, h0, h1, ih]

theorem lookupLast_eraseKey_self (l : List (String × α)) (k : String) :
    lookupLast (eraseKey l k) k = none := by
  induction l with
  | nil => rfl
  | cons e r ih =>
      obtain ⟨k₀, v⟩ := e
      by_cases h0 : k₀ = k
      · simpa [eraseKey, h0] using ih
      · simp [eraseKey, h0, lookupLast, ih, Ne.symm h0]

@[simp] theorem lookupLast_setKey_self (l : List (String × α)) (k : String)
    (v : α) : lookupLast (setKey l k v) k = some v := by
  induction l with
  | nil => simp [setKey, lookupLast]
  | cons e r ih =>
      obtain ⟨k₀, w⟩ := e
      by_cases h0 : k₀ = k
      · simp [setKey, h0, lookupLast, lookupLast_eraseKey_self]
      · simp [setKey, h0, lookupLast, ih]

theorem lookupLast_eraseKey_other (l : List (String × α)) (k k' : String)
    (h : k' ≠ k) : lookupLast (eraseKey l k) k' = lookupLast l k' := by
  induction l with
  | nil => rfl
  | cons e r ih =>
      obtain ⟨k₀, v⟩ := e
      by_cases h0 : k₀ = k
      · subst h0
        simp only [eraseKey, if_pos rfl, ih, lookupLast, if_neg h]
        cases hm : lookupLast r k' <;> simp [hm, ih]
      · simp [eraseKey, h0, lookupLast, ih]

theorem lookupLast_setKey_other (l : List (String × α)) (k k' : String)
    (v : α) (h : k' ≠ k) :
    lookupLast (setKey l k v) k' = lookupLast l k' := by
  induction l with
  | nil => simp [setKey, lookupLast, h]
  | cons e r ih =>
      obtain ⟨k₀, w⟩ := e
      by_cases h0 : k₀ = k
      · subst h0
        simp [setKey, lookupLast, lookupLast_eraseKey_other r k₀ k' h, h]
      · simp [setKey, h0, lookupLast, ih]

theorem lookupF_eq_none_iff (l : List (String × α)) (k : String) :
    lookupF l k = none ↔ k ∉ l.map Prod.fst := by
  induction l with
  | nil => simp [lookupF]
  | cons e r ih =>
      obtain ⟨k₀, v⟩ := e
      by_cases h0 : k = k₀ <;> simp [lookupF, h0, ih]

theorem lookupLast_eq_none_iff (l : List (String × α)) (k : String) :
    lookupLast l k = none ↔ k ∉ l.map Prod.fst := by
  induction l with
  | nil => simp [lookupLast]
  | cons e r ih =>
      obtain ⟨k₀, v⟩ := e
      match h : lookupLast r k with
      | some w =>
          have hmem : k ∈ r.map Prod.fst := by
            by_contra hk
            have h2 := ih.mpr hk
            rw [h] at h2
            cases h2
          simp [lookupLast, h, hmem]
      | none =>
          by_cases h0 : k = k₀
          · subst h0
            simp [lookupLast, h]
          · simp [lookupLast, h, h0, ih.mp h]

theorem lookupLast_eq_lookupF_of_nodup (l : List (String × α)) (k : String)
    (hn : (l.map Prod.fst).Nodup) : lookupLast l k = lookupF l k := by
  induction l with
  | nil => rfl
  | cons e r ih =>
      obtain ⟨k₀, v⟩ := e
      simp only [List.map_cons, List.nodup_cons] at hn
      match h : lookupLast r k with
      | some w =>
          have hmem : k ∈ r.map Prod.fst := by
            by_contra hk
            have h2 := (lookupLast_eq_none_iff r k).mpr hk
            rw [h] at h2
            cases h2
          have hne : k ≠ k₀ := fun he => hn.1 (he ▸ hmem)
          have hr : lookupF r k = some w := by rw [← ih hn.2, h]
          simp [lookupLast, h, lookupF, hne, hr]
      | none =>
          have hr : lookupF r k = none := by rw [← ih hn.2, h]
          by_cases h0 : k = k₀
          · subst h0
            simp [lookupLast, h, lookupF]
          · simp [lookupLast, h, h0, lookupF, hr]

theorem lookupF_spreadMerge_of_last_none (a b : List (String × α))
    (k : String) (h : lookupLast b k = none) :
    lookupF (spreadMerge a b) k = lookupF a k := by
  induction b generalizing a with
  | nil => rfl
  | cons e b' ih =>
      obtain ⟨k₀, v⟩ := e
      have hcons : spreadMerge a ((k₀, v) :: b') =
          spreadMerge (setKey a k₀ v) b' := rfl
      simp only [lookupLast] at h
      match h' : lookupLast b' k with
      | some w => rw [h'] at h; cases h
      | none =>
          rw [h'] at h
          have hk0 : k ≠ k₀ := by
            by_contra he
            simp [he] at h
          rw [hcons, ih (setKey a k₀ v) h', lookupF_setKey_other a k₀ k v hk0]

theorem lookupF_spreadMerge_of_last_some (a b : List (String × α))
    (k : String) (v : α) (h : lookupLast b k = some v) :
    lookupF (spreadMerge a b) k = some v := by
  induction b generalizing a with
  | nil => cases h
  | cons e b' ih =>
      obtain ⟨k₀, w⟩ := e
      have hcons : spreadMerge a ((k₀, w) :: b') =
          spreadMerge (setKey a k₀ w) b' := rfl
      simp only [lookupLast] at h
      match h' : lookupLast b' k with
      | some u =>
          rw [h'] at h
          injection h with h
          subst h
          rw [hcons]
          exact ih (setKey a k₀ w) h'
      | none =>
          rw [h'] at h
          by_cases h0 : k = k₀
          · subst h0
            simp only [if_pos rfl] at h
            injection h with h
            rw [hcons, lookupF_spreadMerge_of_last_none (setKey a k w) b' k h',
              lookupF_setKey_self, h]
          · simp [h0] at h

theorem lookupF_spreadMerge_isSome (a b : List (String × α)) (k : String) :
    (lookupF (spreadMerge a b) k).isSome ↔
      (lookupF a k).isSome ∨ (lookupF b k).isSome := by
  match h : lookupLast b k with
  | some v =>
      have hb : lookupF b k ≠ none := by
        rw [Ne, lookupF_eq_none_iff]
        intro hk
        rw [(lookupLast_eq_none_iff b k).mpr hk] at h
        cases h
      rw [lookupF_spreadMerge_of_last_some a b k v h]
      simp [Option.isSome_iff_ne_none, hb]
  | none =>
      have hb : lookupF b k = none := by
        rw [lookupF_eq_none_iff]
        exact (lookupLast_eq_none_iff b k).mp h
      rw [lookupF_spreadMerge_of_last_none a b k h]
      simp [hb]

mutual
theorem deepClone_structEq (v : JVal) (n : Nat) :
    structEq (deepClone v n).1 v = true := by
  match v with
  | .prim p => simp [deepClone, structEq]
  | .func r => simp [deepClone, structEq]
  | .date _ t => simp [deepClone, structEq]
  | .obj _ fs => simp [deepClone, structEq, deepCloneFields_structEq fs (n + 1)]
  | .arr _ es => simp [deepClone, structEq, deepCloneList_structEq es (n + 1)]

theorem deepCloneList_structEq (es : List JVal) (n : Nat) :
    structEqList (deepCloneList es n).1 es = true := by
  match es with
  | [] => simp [deepCloneList, structEqList]
  | v :: vs =>
      simp [deepCloneList, structEqList, deepClone_structEq v n,
        deepCloneList_structEq vs (deepClone v n).2]

theorem deepCloneFields_structEq (fs : List (String × JVal)) (n : Nat) :
    structEqFields (deepCloneFields fs n).1 fs = true := by
  match fs with
  | [] => simp [deepCloneFields, structEqFields]
  | (k, v) :: gs =>
      simp [deepCloneFields, structEqFields, deepClone_structEq v n,
        deepCloneFields_structEq gs (deepClone v n).2]
end

mutual
theorem deepClone_counter_le (v : JVal) (n : Nat) : n ≤ (deepClone v n).2 := by
  match v with
  | .prim p => simp [deepClone]
  | .func r => simp [deepClone]
  | .date _ t => simp [deepClone]
  | .obj _ fs =>
      have := deepCloneFields_counter_le fs (n + 1)
      simp only [deepClone]
      omega
  | .arr _ es =>
      have := deepCloneList_counter_le es (n + 1)
      simp only [deepClone]
      omega

theorem deepCloneList_counter_le (es : List JVal) (n : Nat) :
    n ≤ (deepCloneList es n).2 := by
  match es with
  | [] => simp [deepCloneList]
  | v :: vs =>
      have h1 := deepClone_counter_le v n
      have h2 := deepCloneList_counter_le vs (deepClone v n).2
      simp only [deepCloneList]
      omega

theorem deepCloneFields_counter_le (fs : List (String × JVal)) (n : Nat) :
    n ≤ (deepCloneFields fs n).2 := by
  match fs with
  | [] => simp [deepCloneFields]
  | (k, v) :: gs =>
      have h1 := deepClone_counter_le v n
      have h2 := deepCloneFields_counter_le gs (deepClone v n).2
      simp only [deepCloneFields]
      omega
end

mutual
theorem deepClone_addrs_ge (v : JVal) (n : Nat) :
    ∀ a ∈ addrs (deepClone v n).1, n ≤ a := by
  match v with
  | .prim p => simp [deepClone, addrs]
  | .func r => simp [deepClone, addrs]
  | .date _ t => simp [deepClone, addrs]
  | .obj _ fs =>
      intro a ha
      simp only [deepClone, addrs, List.mem_cons] at ha
      rcases ha with rfl | ha
      · exact le_refl a
      · have := deepCloneFields_addrs_ge fs (n + 1) a ha
        omega
  | .arr _ es =>
      intro a ha
      simp only [deepClone, addrs, List.mem_cons] at ha
      rcases ha with rfl | ha
      · exact le_refl a
      · have := deepCloneList_addrs_ge es (n + 1) a ha
        omega

theorem deepCloneList_addrs_ge (es : List JVal) (n : Nat) :
    ∀ a ∈ addrsList (deepCloneList es n).1, n ≤ a := by
  match es with
  | [] => simp [deepCloneList, addrsList]
  | v :: vs =>
      intro a ha
      simp only [deepCloneList, addrsList, List.mem_append] at ha
      rcases ha with ha | ha
      · exact deepClone_addrs_ge v n a ha
      · have h1 := deepClone_counter_le v n
        have h2 := deepCloneList_addrs_ge vs (deepClone v n).2 a ha
        omega

theorem deepCloneFields_addrs_ge (fs : List (String × JVal)) (n : Nat) :
    ∀ a ∈ addrsFields (deepCloneFields fs n).1, n ≤ a := by
  match fs with
  | [] => simp [deepCloneFields, addrsFields]
  | (k, v) :: gs =>
      intro a ha
      simp only [deepCloneFields, addrsFields, List.mem_append] at ha
      rcases ha with ha | ha
      · exact deepClone_addrs_ge v n a ha
      · have h1 := deepClone_counter_le v n
        have h2 := deepCloneFields_addrs_ge gs (deepClone v n).2 a ha
        omega
end

mutual
theorem writeAt_not_mem (v : JVal) (tgt : Nat) (f : JVal → JVal)
    (h : tgt ∉ addrs v) : writeAt tgt f v = v := by
  match v with
  | .prim p => rfl
  | .func r => rfl
  | .date a t =>
      simp only [addrs, List.mem_singleton] at h
      simp [writeAt, Ne.symm h]
  | .obj a fs =>
      simp only [addrs, List.mem_cons, not_or] at h
      simp [writeAt, Ne.symm h.1, writeAtFields_not_mem fs tgt f h.2]
  | .arr a es =>
      simp only [addrs, List.mem_cons, not_or] at h
      simp [writeAt, Ne.symm h.1, writeAtList_not_mem es tgt f h.2]

theorem writeAtList_not_mem (es : List JVal) (tgt : Nat) (f : JVal → JVal)
    (h : tgt ∉ addrsList es) : writeAtList tgt f es = es := by
  match es with
  | [] => rfl
  | v :: vs =>
      simp only [addrsList, List.mem_append, not_or] at h
      simp [writeAtList, writeAt_not_mem v tgt f h.1,
        writeAtList_not_mem vs tgt f h.2]

theorem writeAtFields_not_mem (fs : List (String × JVal)) (tgt : Nat)
    (f : JVal → JVal) (h : tgt ∉ addrsFields fs) :
    writeAtFields tgt f fs = fs := by
  match fs with
  | [] => rfl
  | (k, v) :: gs =>
      simp only [addrsFields, List.mem_append, not_or] at h
      simp [writeAtFields, writeAt_not_mem v tgt f h.1,
        writeAtFields_not_mem gs tgt f h.2]
end
theorem traceOps_eq_cons (c : StoreCell) (l : List TimedOp) :
    ∃ r, traceOps c l = c :: r := by
  cases l with
  | nil => exact ⟨[], rfl⟩
  | cons t ts => exact ⟨_, rfl⟩

theorem lut_doSet_of_none (c : StoreCell) (p : Obj)
    (h : lookupF p "lastUpdateTime" = none) :
    lookupF (doSet c p).state "lastUpdateTime" =
      lookupF c.state "lastUpdateTime" := by
  have hl : lookupLast p "lastUpdateTime" = none :=
    (lookupLast_eq_none_iff p "lastUpdateTime").mpr
      ((lookupF_eq_none_iff p "lastUpdateTime").mp h)
  exact lookupF_spreadMerge_of_last_none c.state p "lastUpdateTime" hl

theorem lut_stepOp (c : StoreCell) (τ : TimedOp) (v0 : Nat)
    (hl : lookupF c.state "lastUpdateTime" = some (jnum v0))
    (hsafe : opSafeForLut τ.op) (hv : v0 ≤ τ.now) :
    ∃ v1 : Nat,
      lookupF (stepOp c τ).state "lastUpdateTime" = some (jnum v1) ∧
      v0 ≤ v1 ∧ v1 ≤ τ.now := by
  match hop : τ.op with
  | .nset p =>
      have hp : lookupF p "lastUpdateTime" = none := by
        rw [hop] at hsafe
        exact hsafe
      refine ⟨v0, ?_, le_refl v0, hv⟩
      simp only [stepOp, hop]
      rw [lut_doSet_of_none c p hp, hl]
  | .nmark =>
      refine ⟨τ.now, ?_, hv, le_refl _⟩
      simp only [stepOp, hop, markUpdateOp]
      exact lookupF_spreadMerge_of_last_some c.state
        [("lastUpdateTime", jnum τ.now)] "lastUpdateTime" (jnum τ.now)
        (by simp [lookupLast])
  | .nupd m =>
      match hm : m (deepCloneFields c.state τ.fresh).1 with
      | .error e =>
          refine ⟨v0, ?_, le_refl v0, hv⟩
          simp only [stepOp, hop, updateOp, hm]
          exact hl
      | .ok d =>
          refine ⟨τ.now, ?_, hv, le_refl _⟩
          simp only [stepOp, hop, updateOp, hm]
          exact lookupF_spreadMerge_of_last_some c.state
            (setKey d "lastUpdateTime" (jnum τ.now)) "lastUpdateTime"
            (jnum τ.now) (lookupLast_setKey_self d "lastUpdateTime" (jnum τ.now))

theorem lutD_eq (c : StoreCell) (v0 : Nat)
    (hl : lookupF c.state "lastUpdateTime" = some (jnum v0)) :
    lutD c = Int.ofNat v0 := by
  simp [lutD, lutOf, hl, jnum]

theorem run_lut_chain (ops : List TimedOp) (c : StoreCell) (t0 v0 : Nat)
    (hl : lookupF c.state "lastUpdateTime" = some (jnum v0)) (hv : v0 ≤ t0)
    (hsafe : ∀ τ ∈ ops, opSafeForLut τ.op)
    (hclock : List.Chain' (· ≤ ·) (t0 :: ops.map TimedOp.now)) :
    List.Chain' (fun a b => lutD a ≤ lutD b) (traceOps c ops) := by
  induction ops generalizing c t0 v0 with
  | nil => simp [traceOps]
  | cons τ ts ih =>
      rw [List.map_cons, List.chain'_cons] at hclock
      obtain ⟨v1, hl1, hge, hle⟩ :=
        lut_stepOp c τ v0 hl (hsafe τ (List.mem_cons_self τ ts))
          (le_trans hv hclock.1)
      obtain ⟨r, hr⟩ := traceOps_eq_cons (stepOp c τ) ts
      have hchain := ih (stepOp c τ) τ.now v1 hl1 hle
        (fun σ hσ => hsafe σ (List.mem_cons_of_mem τ hσ)) hclock.2
      rw [traceOps, hr, List.chain'_cons]
      constructor
      · rw [lutD_eq c v0 hl, lutD_eq (stepOp c τ) v1 hl1]
        exact Int.ofNat_le.mpr hge
      · rw [← hr]
        exact hchain

/-- C1: after a successful `update(m)` the committed state agrees, on every
field, with the mutator's writes applied to a deep clone of the prior state,
except `lastUpdateTime`, which equals the clock value read at commit time —
any value the mutator wrote to `draft.lastUpdateTime` is discarded in favour
of the refreshed timestamp.  `createStore` and `createPersistStore` install
the identical `update` closure, embedded as `updateOp`, so the theorem covers
both.  `d` is the draft the mutator returned without throwing; being a
JavaScript object it has no duplicate keys (`hnodup`), and a mutator performs
writes, not deletions, so every key of the prior state is still present on
the draft (`hkeys`). -/
theorem update_commit_spec (c : StoreCell) (m : Obj → Except String Obj)
    (now fresh : Nat) (d : Obj)
    (hok : m (deepCloneFields c.state fresh).1 = .ok d)
    (hnodup : (d.map Prod.fst).Nodup)
    (hkeys : ∀ e ∈ c.state, (lookupF d e.1).isSome = true) :
    (updateOp c m now fresh).2 = none ∧
    lookupF (updateOp c m now fresh).1.state "lastUpdateTime" =
      some (jnum now) ∧
    ∀ k, k ≠ "lastUpdateTime" →
      lookupF (updateOp c m now fresh).1.state k = lookupF d k := by
  have hu : updateOp c m now fresh =
      (doSet c (setKey d "lastUpdateTime" (jnum now)), none) := by
    simp only [updateOp, hok]
  refine ⟨by rw [hu], ?_, ?_⟩
  · rw [hu]
    exact lookupF_spreadMerge_of_last_some c.state
      (setKey d "lastUpdateTime" (jnum now)) "lastUpdateTime" (jnum now)
      (lookupLast_setKey_self d "lastUpdateTime" (jnum now))
  · intro k hk
    rw [hu]
    show lookupF (spreadMerge c.state (setKey d "lastUpdateTime" (jnum now)))
      k = lookupF d k
    match hlast : lookupLast (setKey d "lastUpdateTime" (jnum now)) k with
    | some v =>
        rw [lookupF_spreadMerge_of_last_some c.state
          (setKey d "lastUpdateTime" (jnum now)) k v hlast]
        rw [lookupLast_setKey_other d "lastUpdateTime" k (jnum now) hk]
          at hlast
        rw [← lookupLast_eq_lookupF_of_nodup d k hnodup, hlast]
    | none =>
        rw [lookupF_spreadMerge_of_last_none c.state
          (setKey d "lastUpdateTime" (jnum now)) k hlast]
        rw [lookupLast_setKey_other d "lastUpdateTime" k (jnum now) hk]
          at hlast
        have hdnone : lookupF d k = none :=
          (lookupF_eq_none_iff d k).mpr ((lookupLast_eq_none_iff d k).mp hlast)
        rw [hdnone, lookupF_eq_none_iff]
        intro hmem
        obtain ⟨e, he, hek⟩ := List.mem_map.mp hmem
        have hkd := hkeys e he
        rw [hek, hdnone] at hkd
        simp at hkd

/-- Witness for C1 at a concrete store and mutator. -/
theorem update_commit_witness :
    lookupF (updateOp (initCell [("a", jnum 1)])
        (fun o => Except.ok (setKey o "a" (jnum 5))) 9 10).1.state
      "lastUpdateTime" = some (jnum 9) ∧
    lookupF (updateOp (initCell [("a", jnum 1)])
        (fun o => Except.ok (setKey o "a" (jnum 5))) 9 10).1.state "a" =
      lookupF (setKey (deepCloneFields (initCell [("a", jnum 1)]).state 10).1
        "a" (jnum 5)) "a" :=
  ⟨(update_commit_spec (initCell [("a", jnum 1)])
      (fun o => Except.ok (setKey o "a" (jnum 5))) 9 10
      (setKey (deepCloneFields (initCell [("a", jnum 1)]).state 10).1
        "a" (jnum 5)) rfl (by decide) (by decide)).2.1,
   (update_commit_spec (initCell [("a", jnum 1)])
      (fun o => Except.ok (setKey o "a" (jnum 5))) 9 10
      (setKey (deepCloneFields (initCell [("a", jnum 1)]).state 10).1
        "a" (jnum 5)) rfl (by decide) (by decide)).2.2 "a" (by decide)⟩

/-- C2: when the mutator raises a failure, `update(m)` propagates that very
failure to the caller, the native setter is never invoked during the call
(the set log of the cell is unchanged), and the store state after the
attempted call is exactly the state before it. -/
theorem update_mutator_error_spec (c : StoreCell)
    (m : Obj → Except String Obj) (now fresh : Nat) (e : String)
    (herr : m (deepCloneFields c.state fresh).1 = .error e) :
    updateOp c m now fresh = (c, some e) := by
  simp only [updateOp, herr]

/-- Witness for C2 at a concrete store and failing mutator. -/
theorem update_mutator_error_witness :
    updateOp (initCell [("a", jnum 1)]) (fun _ => Except.error "boom") 5 20 =
      (initCell [("a", jnum 1)], some "boom") :=
  update_mutator_error_spec (initCell [("a", jnum 1)])
    (fun _ => Except.error "boom") 5 20 "boom" rfl

/-- C3: `markUpdate()` sets `lastUpdateTime` to the current clock value and
leaves the value of every other field of the state identical to its value
before the call. -/
theorem markUpdate_spec (c : StoreCell) (now : Nat) :
    lookupF (markUpdateOp c now).state "lastUpdateTime" = some (jnum now) ∧
    ∀ k, k ≠ "lastUpdateTime" →
      lookupF (markUpdateOp c now).state k = lookupF c.state k := by
  constructor
  · exact lookupF_spreadMerge_of_last_some c.state
      [("lastUpdateTime", jnum now)] "lastUpdateTime" (jnum now)
      (by simp [lookupLast])
  · intro k hk
    exact lookupF_spreadMerge_of_last_none c.state
      [("lastUpdateTime", jnum now)] k (by simp [lookupLast, hk])

/-- Witness for C3 at a concrete store. -/
theorem markUpdate_witness :
    lookupF (markUpdateOp (initCell [("a", jnum 1)]) 7).state
      "lastUpdateTime" = some (jnum 7) ∧
    lookupF (markUpdateOp (initCell [("a", jnum 1)]) 7).state "a" =
      lookupF (initCell [("a", jnum 1)]).state "a" :=
  ⟨(markUpdate_spec (initCell [("a", jnum 1)]) 7).1,
   (markUpdate_spec (initCell [("a", jnum 1)]) 7).2 "a" (by decide)⟩

/-- C4: `getMergedState(getState, methods)` exposes every field of the state
snapshot returned by `getState()` at this call plus every entry of
`methods`; on a name collision the `methods` entry wins; the key set of the
result is the union of both key sets; and the result is computed from the
accessor's current return value, so two accessors that agree now produce the
same merge (no cached snapshot). -/
theorem getMergedState_spec (g : Unit → Obj) (ms : Obj)
    (hnodup : (ms.map Prod.fst).Nodup) :
    (∀ k v, lookupF ms k = some v →
      lookupF (getMergedState g ms) k = some v) ∧
    (∀ k, lookupF ms k = none →
      lookupF (getMergedState g ms) k = lookupF (g ()) k) ∧
    (∀ k, (lookupF (getMergedState g ms) k).isSome ↔
      (lookupF (g ()) k).isSome ∨ (lookupF ms k).isSome) ∧
    (∀ g₂ : Unit → Obj, g () = g₂ () →
      getMergedState g ms = getMergedState g₂ ms) := by
  refine ⟨?_, ?_, ?_, ?_⟩
  · intro k v hv
    have hlast : lookupLast ms k = some v := by
      rw [lookupLast_eq_lookupF_of_nodup ms k hnodup, hv]
    exact lookupF_spreadMerge_of_last_some (g ()) ms k v hlast
  · intro k hnone
    exact lookupF_spreadMerge_of_last_none (g ()) ms k
      ((lookupLast_eq_none_iff ms k).mpr ((lookupF_eq_none_iff ms k).mp hnone))
  · intro k
    exact lookupF_spreadMerge_isSome (g ()) ms k
  · intro g₂ hg
    simp [getMergedState, hg]

/-- Witness for C4 at a concrete accessor and methods mapping sharing the
key `count`. -/
theorem getMergedState_witness :
    lookupF (getMergedState (fun _ => [("a", jnum 1), ("count", jnum 2)])
      [("count", jnum 7)]) "count" = some (jnum 7) ∧
    lookupF (getMergedState (fun _ => [("a", jnum 1), ("count", jnum 2)])
        [("count", jnum 7)]) "a" =
      lookupF [("a", jnum 1), ("count", jnum 2)] "a" :=
  ⟨(getMergedState_spec (fun _ => [("a", jnum 1), ("count", jnum 2)])
      [("count", jnum 7)] (by decide)).1 "count" (jnum 7) rfl,
   (getMergedState_spec (fun _ => [("a", jnum 1), ("count", jnum 2)])
      [("count", jnum 7)] (by decide)).2.1 "a" rfl⟩

/-- C5: for an acyclic value `v` (every `JVal` is finite, hence acyclic)
cloned with a fresh allocation counter `n`, the clone is structurally equal
to `v`; primitives are returned unchanged and functions are copied by
reference; and the clone shares no mutable container with `v`: mutating any
container reachable from the clone leaves everything reachable from `v`
untouched, and vice versa. -/
theorem deepClone_spec (v : JVal) (n : Nat)
    (hfresh : ∀ a ∈ addrs v, a < n) :
    structEq (deepClone v n).1 v = true ∧
    (∀ p m, deepClone (.prim p) m = (.prim p, m)) ∧
    (∀ r m, deepClone (.func r) m = (.func r, m)) ∧
    (∀ tgt ∈ addrs (deepClone v n).1, ∀ f, writeAt tgt f v = v) ∧
    (∀ tgt ∈ addrs v, ∀ f,
      writeAt tgt f (deepClone v n).1 = (deepClone v n).1) := by
  refine ⟨deepClone_structEq v n, fun p m => rfl, fun r m => rfl, ?_, ?_⟩
  · intro tgt htgt f
    apply writeAt_not_mem
    intro hmem
    have h1 := deepClone_addrs_ge v n tgt htgt
    have h2 := hfresh tgt hmem
    omega
  · intro tgt htgt f
    apply writeAt_not_mem
    intro hmem
    have h1 := deepClone_addrs_ge v n tgt hmem
    have h2 := hfresh tgt htgt
    omega

/-- Witness for C5 at a concrete nested value. -/
theorem deepClone_witness :
    structEq
      (deepClone (.obj 0 [("a", .prim (.num 1)), ("d", .date 1 5)]) 2).1
      (.obj 0 [("a", .prim (.num 1)), ("d", .date 1 5)]) = true ∧
    writeAt 2 (fun _ => .prim .null)
        (.obj 0 [("a", .prim (.num 1)), ("d", .date 1 5)]) =
      .obj 0 [("a", .prim (.num 1)), ("d", .date 1 5)] :=
  ⟨(deepClone_spec (.obj 0 [("a", .prim (.num 1)), ("d", .date 1 5)]) 2
      (by decide)).1,
   (deepClone_spec (.obj 0 [("a", .prim (.num 1)), ("d", .date 1 5)]) 2
      (by decide)).2.2.2.1 2 (by decide) (fun _ => .prim .null)⟩

/-- C6 as stated fails on the code: a native `set` whose patch assigns
`lastUpdateTime` directly can drive the field backwards even under a
non-decreasing clock.  Concretely: after `markUpdate` at clock 5, a
`set(\x7b lastUpdateTime: 3 \x7d)` leaves `lastUpdateTime = 3 < 5`, although the
clock readings `[5, 5]` never decrease. -/
theorem lut_monotone_counterexample :
    (traceOps (initCell [("a", jnum 1)])
        [⟨.nmark, 5, 50⟩, ⟨.nset [("lastUpdateTime", jnum 3)], 5, 60⟩]).map
      lutD = [0, 5, 3] ∧
    List.Chain' (· ≤ ·)
      (([⟨.nmark, 5, 50⟩,
          ⟨.nset [("lastUpdateTime", jnum 3)], 5, 60⟩] : List TimedOp).map
        TimedOp.now) ∧
    (3 : Int) < 5 := by
  refine ⟨by decide, ?_, by decide⟩
  simp [List.chain'_cons, List.chain'_singleton]

/-- C6 (amended): `lastUpdateTime` is 0 at construction, before any mutation
or hydration; and under a non-decreasing host clock it never decreases
across any sequence of `set`, `update` and `markUpdate` operations whose
`set` patches do not themselves assign `lastUpdateTime` directly. -/
theorem createStore_lut_monotone (userState : Obj) (ops : List TimedOp)
    (hsafe : ∀ τ ∈ ops, opSafeForLut τ.op)
    (hclock : List.Chain' (· ≤ ·) (ops.map TimedOp.now)) :
    lookupF (initCell userState).state "lastUpdateTime" = some (jnum 0) ∧
    List.Chain' (fun a b => lutD a ≤ lutD b)
      (traceOps (initCell userState) ops) := by
  have h0 : lookupF (initCell userState).state "lastUpdateTime" =
      some (jnum 0) := lookupF_setKey_self userState "lastUpdateTime" (jnum 0)
  refine ⟨h0, ?_⟩
  apply run_lut_chain ops (initCell userState) 0 0 h0 (le_refl 0) hsafe
  rw [List.chain'_cons']
  exact ⟨fun y _ => Nat.zero_le y, hclock⟩

/-- Witness for the amended C6 at a concrete run. -/
theorem createStore_lut_monotone_witness :
    lookupF (initCell [("a", jnum 1)]).state "lastUpdateTime" =
      some (jnum 0) ∧
    List.Chain' (fun a b => lutD a ≤ lutD b)
      (traceOps (initCell [("a", jnum 1)])
        [⟨.nmark, 3, 40⟩, ⟨.nupd (fun o => Except.ok o), 7, 50⟩]) :=
  createStore_lut_monotone [("a", jnum 1)]
    [⟨.nmark, 3, 40⟩, ⟨.nupd (fun o => Except.ok o), 7, 50⟩]
    (by
      intro τ hτ
      simp only [List.mem_cons, List.not_mem_nil, or_false] at hτ
      rcases hτ with rfl | rfl <;> exact trivial)
    (by simp [List.chain'_cons, List.chain'_singleton])

/-- C7: `ensure(obj, keys)` is true iff every key in `keys` exists on `obj`
with a value different from the missing sentinel (null/undefined); the three
example evaluations of the spec hold.  The embedding is a pure function, so
the call has no side effects. -/
theorem ensure_spec (obj : Obj) (keys : List String) :
    (ensure obj keys = true ↔
      ∀ k ∈ keys, ∃ v, lookupF obj k = some v ∧ isMissing v = false) ∧
    ensure [("a", jnum 1), ("b", jnum 2)] ["a", "b"] = true ∧
    ensure [("a", jnum 1)] ["a", "b"] = false ∧
    ensure [("a", .prim .undef)] ["a"] = false := by
  refine ⟨?_, by decide, by decide, by decide⟩
  rw [ensure, List.all_eq_true]
  constructor
  · intro h k hk
    have hx := h k hk
    match hv : lookupF obj k with
    | some v =>
        rw [hv] at hx
        simp only [Bool.not_eq_true'] at hx
        exact ⟨v, rfl, hx⟩
    | none =>
        rw [hv] at hx
        simp at hx
  · intro h k hk
    obtain ⟨v, hv, hm⟩ := h k hk
    rw [hv]
    simp [hm]

/-- Witness for C7: the characterisation applied at a concrete object. -/
theorem ensure_witness :
    ∃ v, lookupF [("a", jnum 1), ("b", jnum 2)] "a" = some v ∧
      isMissing v = false :=
  ((ensure_spec [("a", jnum 1), ("b", jnum 2)] ["a", "b"]).1.mp (by decide))
    "a" (by decide)

/-- C8: whatever the initial state and whatever mapping the user factory
returns — even one with entries named `update` or `markUpdate` — the store
object assembled by `createStore` / `createPersistStore` exposes the
system-injected `update` and `markUpdate` closures: injection is
unconditional and the injected entries take precedence over same-named
factory entries. -/
theorem injected_methods_spec (userState um : Obj) (mkRef upRef : Nat) :
    lookupF (createStoreObject userState um mkRef upRef) "update" =
      some (.func upRef) ∧
    lookupF (createStoreObject userState um mkRef upRef) "markUpdate" =
      some (.func mkRef) := by
  constructor
  · exact lookupF_spreadMerge_of_last_some (initState userState)
      (injectMethods um mkRef upRef) "update" (.func upRef)
      (lookupLast_setKey_self (setKey um "markUpdate" (.func mkRef))
        "update" (.func upRef))
  · apply lookupF_spreadMerge_of_last_some
    rw [injectMethods,
      lookupLast_setKey_other (setKey um "markUpdate" (.func mkRef))
        "update" "markUpdate" (.func upRef) (by decide)]
    exact lookupLast_setKey_self um "markUpdate" (.func mkRef)

/-- C9 as stated fails on the code: the entry point's export declaration
names `createPersistStore`, `createStore`, `deepClone` and `ensure` (plus
the types `SetStoreState` and `Updater`) but does NOT export
`getMergedState`, although the spec lists it in the public surface. -/
theorem getMergedState_not_exported :
    specPublicSurface.contains "getMergedState" = true ∧
    valueExports.contains "getMergedState" = false ∧
    typeExports.contains "getMergedState" = false := by decide

/-- C9 (amended): the public surface exposed to consumers consists of
`createStore`, `createPersistStore`, `deepClone` and `ensure` (plus the
type-only exports `SetStoreState` and `Updater`); `getMergedState` is an
internal helper and is not exported.  Of the surface the spec claims,
exactly the four names other than `getMergedState` are really exported, and
every runtime export is among the spec's names. -/
theorem publicSurface_spec :
    specPublicSurface.filter (fun s => valueExports.contains s) =
      ["createStore", "createPersistStore", "deepClone", "ensure"] ∧
    valueExports.all (fun s => specPublicSurface.contains s) = true ∧
    valueExports.contains "getMergedState" = false := by decide

/-- C10 as stated fails on the code: a user-supplied method may pass a patch
containing `lastUpdateTime` to the native `set`, which then writes the
field — so `update` and `markUpdate` are not the only possible writers.
Concretely, `set(\x7b lastUpdateTime: 99 \x7d)` moves it from 0 to 99. -/
theorem nativeSet_writes_lut_counterexample :
    lutOf (initCell [("a", jnum 1)]).state = some 0 ∧
    lutOf (doSet (initCell [("a", jnum 1)])
        [("lastUpdateTime", jnum 99)]).state = some 99 ∧
    (0 : Int) < 99 := by decide

/-- C10 (amended): a user-supplied method that mutates state through the
native `set` with a patch that does not itself contain a `lastUpdateTime`
binding leaves `lastUpdateTime` unchanged; the library itself writes the
field only in the injected `update` and `markUpdate` operations. -/
theorem nativeSet_keeps_lut (c : StoreCell) (p : Obj)
    (h : lookupF p "lastUpdateTime" = none) :
    lookupF (doSet c p).state "lastUpdateTime" =
      lookupF c.state "lastUpdateTime" :=
  lut_doSet_of_none c p h

/-- Witness for the amended C10 at a concrete patch. -/
theorem nativeSet_keeps_lut_witness :
    lookupF (doSet (initCell [("a", jnum 1)]) [("a", jnum 2)]).state
        "lastUpdateTime" =
      lookupF (initCell [("a", jnum 1)]).state "lastUpdateTime" :=
  nativeSet_keeps_lut (initCell [("a", jnum 1)]) [("a", jnum 2)] rfl
